import Mathlib

/-!
Verification of the frequency-stratified sketch and its merge protocol
(repository `cardinality_estimation_evaluation_framework`).

The stratified-sketch module itself is not among the shown source files; only
its test suite (`src/src/estimators/tests/stratified_sketch_test.py`) is.  The
definitions below are therefore modelled from the specification (sections 3,
4.1-4.4, 7) and from the behaviour the test suite exercises, for the Exact
Multiset reference backend.  Identifiers are natural numbers, buckets are
finite sets of identifiers, and fallible operations return `Except`.
-/

/-- Identifiers handled by the sketches (opaque user ids in the reference
implementation; modelled as natural numbers). -/
abbrev UserId := Nat

/-- Modelled from the spec: a frequency bucket key is either an integer in
`[1, max_freq]` or the distinguished value `ONE_PLUS` ("ANY" in the spec),
meaning reach regardless of frequency. -/
inductive BucketKey where
  | freq (k : Nat)
  | ONE_PLUS
deriving DecidableEq, Repr

/-- First-match lookup in an association list of buckets, returning the empty
set when the key is missing (mirrors a Python dict keyed by bucket key). -/
def lookupKey : List (BucketKey × Finset UserId) → BucketKey → Finset UserId
  | [], _ => ∅
  | (k, v) :: rest, key => if k = key then v else lookupKey rest key

/-- Modelled from the spec: a Stratified Sketch holds the two scalar fields
`max_freq` and `random_seed` plus the mapping from bucket key to the bucket's
cardinality sketch (Exact Multiset backend: the set of member ids). -/
structure StratifiedSketch where
  max_freq : Nat
  random_seed : Int
  sketches : List (BucketKey × Finset UserId)
deriving DecidableEq

/-- Bucket access of a Stratified Sketch by bucket key. -/
def StratifiedSketch.lookup (s : StratifiedSketch) (k : BucketKey) : Finset UserId :=
  lookupKey s.sketches k

/-- Saturating cap at `m`: `cap m x = min(x, m)`, the capping operation every
bucket-key computation of the module applies. -/
def cap (m x : Nat) : Nat := min x m

/-- Saturating sum with cap `m` (spec glossary: addition capped at `m`). -/
def satAdd (m a b : Nat) : Nat := cap m (a + b)

/-- Common bucket-table builder of the module: given `max_freq`, the seed, the
set of ids in the `ONE_PLUS` bucket, and the function assigning each id its
(already capped) bucket key, build the table with one bucket per key
`1..max_freq` holding the ids whose key matches, plus the `ONE_PLUS` bucket. -/
def mkSketch (m : Nat) (seed : Int) (anyIds : Finset UserId) (keyf : UserId → Nat) :
    StratifiedSketch :=
  ⟨m, seed,
    ((List.range' 1 m).map (fun k => (BucketKey.freq k, anyIds.filter (fun x => keyf x = k))))
      ++ [(BucketKey.ONE_PLUS, anyIds)]⟩

/-- Modelled from the spec (§4.3 step 2): the bucket key of an id in a sketch
is the `k ∈ {1..max_freq}` whose bucket contains the id, and `0` when no
numeric bucket does. -/
def StratifiedSketch.key (s : StratifiedSketch) (x : UserId) : Nat :=
  ((List.range' 1 s.max_freq).find? (fun k => decide (x ∈ s.lookup (.freq k)))).getD 0

/-- Modelled from the spec (§4.1): the Exact Multiset reference sketch owns an
id-to-occurrence-count mapping (association list mirroring the Python dict). -/
structure ExactMultiSet where
  ids_list : List (UserId × Nat)
deriving DecidableEq

/-- First-match count lookup in the multiset's association list (0 if the id
is absent). -/
def freqList : List (UserId × Nat) → UserId → Nat
  | [], _ => 0
  | (y, c) :: rest, x => if y = x then c else freqList rest x

/-- Increment the counter of `x`, inserting a fresh counter at 1 when absent
(mirrors `ExactMultiSet.add`, which always succeeds). -/
def addList : List (UserId × Nat) → UserId → List (UserId × Nat)
  | [], x => [(x, 1)]
  | (y, c) :: rest, x => if y = x then (y, c + 1) :: rest else (y, c) :: addList rest x

/-- Modelled from the spec: `add` increments the integer counter for the id. -/
def ExactMultiSet.add (ms : ExactMultiSet) (x : UserId) : ExactMultiSet :=
  ⟨addList ms.ids_list x⟩

/-- Modelled from the spec: `add_ids`, semantically equal to repeated `add`. -/
def ExactMultiSet.add_ids (ms : ExactMultiSet) (l : List UserId) : ExactMultiSet :=
  l.foldl ExactMultiSet.add ms

/-- True frequency of an id in the multiset. -/
def ExactMultiSet.frequency (ms : ExactMultiSet) (x : UserId) : Nat :=
  freqList ms.ids_list x

/-- The set of distinct ids present in the multiset. -/
def ExactMultiSet.id_set (ms : ExactMultiSet) : Finset UserId :=
  (ms.ids_list.map Prod.fst).toFinset

/-- Modelled from the spec (§4.2): construction from an exact multiset — each
id gets bucket key `min(true_frequency, max_freq)`; the `ONE_PLUS` bucket
holds every id present in the input. -/
def StratifiedSketch.init_from_exact_multi_set (max_freq : Nat) (ms : ExactMultiSet)
    (random_seed : Int) : StratifiedSketch :=
  mkSketch max_freq random_seed ms.id_set (fun x => cap max_freq (ms.frequency x))

/-- Modelled from the spec (§4.2): accumulate every occurrence of every id
across every set of the sequence into one Exact Multiset. -/
def multi_set_of_sets (sets : List (List UserId)) : ExactMultiSet :=
  sets.foldl ExactMultiSet.add_ids ⟨[]⟩

/-- Modelled from the spec (§4.2): construction from a sequence of sets —
build the Exact Multiset of all occurrences, then delegate to
`init_from_exact_multi_set`. -/
def StratifiedSketch.init_from_set_generator (max_freq : Nat) (sets : List (List UserId))
    (random_seed : Int) : StratifiedSketch :=
  StratifiedSketch.init_from_exact_multi_set max_freq (multi_set_of_sets sets) random_seed

/-- Errors of the module: the compatibility check reports an assertion error
(the tests expect `AssertionError`); malformed construction input is a
construction error (§7). -/
inductive Err where
  | assertionError
  | constructionError
deriving DecidableEq, Repr

/-- Modelled from the spec (§4.2): `assert_compatible` fails with an assertion
error unless both `max_freq` and `random_seed` agree. -/
def StratifiedSketch.assert_compatible (a b : StratifiedSketch) : Except Err Unit :=
  if a.max_freq = b.max_freq ∧ a.random_seed = b.random_seed then Except.ok ()
  else Except.error Err.assertionError

/-- Boolean form of the compatibility check. -/
def compatibleB (a b : StratifiedSketch) : Bool :=
  decide (a.max_freq = b.max_freq ∧ a.random_seed = b.random_seed)

/-- Modelled from the spec (§4.3): the combination step of the pairwise merge —
result `ONE_PLUS` bucket is the union of the inputs' `ONE_PLUS` buckets, and
every id of the combined reach goes to bucket `min(keyA + keyB, max_freq)`. -/
def mergePairCore (a b : StratifiedSketch) : StratifiedSketch :=
  mkSketch a.max_freq a.random_seed (a.lookup .ONE_PLUS ∪ b.lookup .ONE_PLUS)
    (fun x => cap a.max_freq (a.key x + b.key x))

/-- Modelled from the spec (§4.3): pairwise merge checks compatibility first
and only then combines; on incompatible inputs it fails with no partial
result. -/
def PairwiseEstimator.merge_sketches (a b : StratifiedSketch) : Except Err StratifiedSketch :=
  (a.assert_compatible b).map (fun _ => mergePairCore a b)

/-- Union of the `ONE_PLUS` buckets of a list of sketches. -/
def anysUnion (l : List StratifiedSketch) : Finset UserId :=
  l.foldr (fun s acc => s.lookup .ONE_PLUS ∪ acc) ∅

/-- Sum of the per-source bucket keys of an id across a list of sketches. -/
def keySum (l : List StratifiedSketch) (x : UserId) : Nat :=
  (l.map (fun s => s.key x)).sum

/-- Modelled from the spec (§4.4): single-pass N-way combination — the
`ONE_PLUS` bucket is the union of all inputs' `ONE_PLUS` buckets, and each id
goes to the bucket given by the saturating sum of all its per-source keys. -/
def seqMergeCore (s1 : StratifiedSketch) (rest : List StratifiedSketch) : StratifiedSketch :=
  mkSketch s1.max_freq s1.random_seed (s1.lookup .ONE_PLUS ∪ anysUnion rest)
    (fun x => cap s1.max_freq (s1.key x + keySum rest x))

/-- Modelled from the spec (§4.4): N-way merge — fails on the empty list (no
reference `max_freq`/seed is available), copies a single input, and otherwise
checks every input against the first and combines in a single pass. -/
def SequentialEstimator.merge_sketches : List StratifiedSketch → Except Err StratifiedSketch
  | [] => Except.error Err.constructionError
  | [s] => Except.ok s
  | s1 :: s2 :: rest =>
    if (s2 :: rest).all (fun t => compatibleB s1 t) then
      Except.ok (seqMergeCore s1 (s2 :: rest))
    else Except.error Err.assertionError

/-- Modelled from the spec/tests: the public constructor invoked with
`cardinality_sketch_factory = None` stores the two scalar fields and
populates no buckets. -/
def StratifiedSketch.create (max_freq : Nat) (random_seed : Int) : StratifiedSketch :=
  ⟨max_freq, random_seed, []⟩

/-- Well-formedness of a Stratified Sketch (spec §3): `max_freq` is positive,
the bucket table has exactly the keys `1..max_freq` and `ONE_PLUS` (hence
`max_freq + 1` entries), numeric buckets are pairwise disjoint (I1), and the
`ONE_PLUS` bucket is their union (I2, stated as mutual inclusion of
memberships). -/
def WellFormed (s : StratifiedSketch) : Prop :=
  0 < s.max_freq ∧
  s.sketches.map Prod.fst = (List.range' 1 s.max_freq).map BucketKey.freq ++ [BucketKey.ONE_PLUS] ∧
  (∀ j ∈ Finset.Icc 1 s.max_freq, ∀ k ∈ Finset.Icc 1 s.max_freq, j ≠ k →
    ∀ x ∈ s.lookup (.freq j), x ∉ s.lookup (.freq k)) ∧
  (∀ k ∈ Finset.Icc 1 s.max_freq, ∀ x ∈ s.lookup (.freq k), x ∈ s.lookup .ONE_PLUS) ∧
  (∀ x ∈ s.lookup .ONE_PLUS, ∃ k ∈ Finset.Icc 1 s.max_freq, x ∈ s.lookup (.freq k))

instance (s : StratifiedSketch) : Decidable (WellFormed s) := by
  unfold WellFormed; infer_instance

/-- The bucket key an id has in a sketch, as the claims phrase it: the
`k ∈ {1..max_freq}` whose bucket contains the id, or `0` when the id is
absent from the sketch entirely. -/
def keySpec (s : StratifiedSketch) (x : UserId) (k : Nat) : Prop :=
  (1 ≤ k ∧ k ≤ s.max_freq ∧ x ∈ s.lookup (.freq k)) ∨
  (k = 0 ∧ x ∉ s.lookup .ONE_PLUS)

instance (s : StratifiedSketch) (x : UserId) (k : Nat) : Decidable (keySpec s x k) := by
  unfold keySpec; infer_instance

/-- A multiset is positive when every stored counter is at least 1 (every
multiset reachable through `add` is). -/
def msPositive (ms : ExactMultiSet) : Prop :=
  ∀ p ∈ ms.ids_list, 1 ≤ p.2

instance (ms : ExactMultiSet) : Decidable (msPositive ms) := by
  unfold msPositive; infer_instance

/-- The multiset-building helper of the test suite: for each `(id, n)` pair,
add the id `n` times. -/
def generate_multi_set (l : List (UserId × Nat)) : ExactMultiSet :=
  l.foldl (fun ms p => (List.replicate p.2 p.1).foldl ExactMultiSet.add ms) ⟨[]⟩

/-- First source of the reference merge scenario: id1 twice, id2 three times,
id3 once. -/
def exampleMultiSetA : ExactMultiSet := generate_multi_set [(1, 2), (2, 3), (3, 1)]

/-- Second source of the reference merge scenario: id1 once, id3 once, id4
five times, id5 once. -/
def exampleMultiSetB : ExactMultiSet := generate_multi_set [(1, 1), (3, 1), (4, 5), (5, 1)]

/-- Third source of the reference sequential scenario: id5 once, id6 once. -/
def exampleMultiSetC : ExactMultiSet := generate_multi_set [(5, 1), (6, 1)]

/-- Stratified sketch of source A with `max_freq = 3`, seed 1. -/
def exampleSketchA : StratifiedSketch :=
  StratifiedSketch.init_from_exact_multi_set 3 exampleMultiSetA 1

/-- Stratified sketch of source B with `max_freq = 3`, seed 1. -/
def exampleSketchB : StratifiedSketch :=
  StratifiedSketch.init_from_exact_multi_set 3 exampleMultiSetB 1

/-- Stratified sketch of source C with `max_freq = 3`, seed 1. -/
def exampleSketchC : StratifiedSketch :=
  StratifiedSketch.init_from_exact_multi_set 3 exampleMultiSetC 1


/-! ### Basic arithmetic and list lemmas -/

theorem cap_le (m x : Nat) : cap m x ≤ m := Nat.min_le_right x m

theorem cap_eq_of_le {m x : Nat} (h : x ≤ m) : cap m x = x := Nat.min_eq_left h

theorem one_le_cap {m x : Nat} (hm : 1 ≤ m) (hx : 1 ≤ x) : 1 ≤ cap m x := by
  unfold cap; omega

theorem cap_cap_left (m a b : Nat) : cap m (cap m a + b) = cap m (a + b) := by
  unfold cap; omega

theorem cap_cap_add (m a b : Nat) : cap m (cap m a + cap m b) = cap m (a + b) := by
  unfold cap; omega

theorem mem_range'_iff : ∀ (n a k : Nat), k ∈ List.range' a n ↔ a ≤ k ∧ k < a + n := by
  intro n
  induction n with
  | zero => intro a k; constructor
            · intro h; cases h
            · intro h; omega
  | succ n ih =>
      intro a k
      have hr : List.range' a (n + 1) = a :: List.range' (a + 1) n := rfl
      rw [hr, List.mem_cons, ih]
      omega

theorem nodup_range' : ∀ (n a : Nat), (List.range' a n).Nodup := by
  intro n
  induction n with
  | zero => intro a; exact List.nodup_nil
  | succ n ih =>
      intro a
      have hr : List.range' a (n + 1) = a :: List.range' (a + 1) n := rfl
      rw [hr]
      refine List.nodup_cons.mpr ⟨?_, ih (a + 1)⟩
      intro hmem
      have := (mem_range'_iff n (a + 1) a).mp hmem
      omega

theorem find?_range'_of_uniq (p : Nat → Bool) (k : Nat) :
    ∀ (n a : Nat), a ≤ k → k < a + n → p k = true →
    (∀ j, a ≤ j → j < a + n → p j = true → j = k) →
    (List.range' a n).find? p = some k := by
  intro n
  induction n with
  | zero => intro a h1 h2; omega
  | succ n ih =>
      intro a h1 h2 hk huniq
      have hr : List.range' a (n + 1) = a :: List.range' (a + 1) n := rfl
      rw [hr]
      by_cases ha : p a = true
      · have : a = k := huniq a (Nat.le_refl a) (by omega) ha
        rw [List.find?_cons_of_pos _ ha, this]
      · have hne : a ≠ k := fun h => ha (h ▸ hk)
        rw [List.find?_cons_of_neg _ (by simpa using ha)]
        exact ih (a + 1) (by omega) (by omega) hk
          (fun j hj1 hj2 hpj => huniq j (by omega) (by omega) hpj)

theorem find?_range'_none (p : Nat → Bool) (n a : Nat)
    (h : ∀ j, a ≤ j → j < a + n → p j = false) :
    (List.range' a n).find? p = none := by
  rw [List.find?_eq_none]
  intro j hj
  have := (mem_range'_iff n a j).mp hj
  simp [h j this.1 this.2]

theorem le_sum_of_mem : ∀ {l : List Nat} {a : Nat}, a ∈ l → a ≤ l.sum := by
  intro l
  induction l with
  | nil => intro a h; cases h
  | cons b t ih =>
      intro a h
      rcases List.mem_cons.mp h with h | h
      · subst h; simp [List.sum_cons]
      · have := ih h; simp [List.sum_cons]; omega

/-! ### Lookup lemmas for the bucket table -/

theorem lookupKey_eq_empty_of_not_mem :
    ∀ (l : List (BucketKey × Finset UserId)) (bk : BucketKey),
      bk ∉ l.map Prod.fst → lookupKey l bk = ∅ := by
  intro l
  induction l with
  | nil => intro bk _; rfl
  | cons p t ih =>
      intro bk h
      rw [List.map_cons, List.mem_cons] at h
      push_neg at h
      show (if p.1 = bk then p.2 else lookupKey t bk) = ∅
      rw [if_neg (fun hq => h.1 hq.symm)]
      exact ih bk h.2

theorem lookupKey_append_right :
    ∀ (l1 l2 : List (BucketKey × Finset UserId)) (bk : BucketKey),
      bk ∉ l1.map Prod.fst → lookupKey (l1 ++ l2) bk = lookupKey l2 bk := by
  intro l1
  induction l1 with
  | nil => intro l2 bk _; rfl
  | cons p t ih =>
      intro l2 bk h
      rw [List.map_cons, List.mem_cons] at h
      push_neg at h
      show (if p.1 = bk then p.2 else lookupKey (t ++ l2) bk) = lookupKey l2 bk
      rw [if_neg (fun hq => h.1 hq.symm)]
      exact ih l2 bk h.2

theorem lookupKey_freq_range (f : Nat → Finset UserId) (tail : List (BucketKey × Finset UserId)) :
    ∀ (n a k : Nat), a ≤ k → k < a + n →
      lookupKey (((List.range' a n).map (fun j => (BucketKey.freq j, f j))) ++ tail)
        (.freq k) = f k := by
  intro n
  induction n with
  | zero => intro a k h1 h2; omega
  | succ n ih =>
      intro a k h1 h2
      have hr : List.range' a (n + 1) = a :: List.range' (a + 1) n := rfl
      rw [hr, List.map_cons, List.cons_append]
      by_cases ha : a = k
      · show (if BucketKey.freq a = BucketKey.freq k then f a else _) = f k
        rw [if_pos (by rw [ha]), ha]
      · show (if BucketKey.freq a = BucketKey.freq k then f a else _) = f k
        rw [if_neg (by simpa using ha)]
        exact ih (a + 1) k (by omega) (by omega)

/-! ### Lemmas about `mkSketch` -/

theorem mkSketch_max_freq (m : Nat) (seed : Int) (anyIds : Finset UserId) (keyf : UserId → Nat) :
    (mkSketch m seed anyIds keyf).max_freq = m := rfl

theorem mkSketch_random_seed (m : Nat) (seed : Int) (anyIds : Finset UserId)
    (keyf : UserId → Nat) : (mkSketch m seed anyIds keyf).random_seed = seed := rfl

theorem lookup_mkSketch_freq (m : Nat) (seed : Int) (anyIds : Finset UserId)
    (keyf : UserId → Nat) (k : Nat) (h1 : 1 ≤ k) (h2 : k ≤ m) :
    (mkSketch m seed anyIds keyf).lookup (.freq k) =
      anyIds.filter (fun x => keyf x = k) := by
  show lookupKey _ _ = _
  exact lookupKey_freq_range (fun j => anyIds.filter (fun x => keyf x = j)) _ m 1 k h1
    (by omega)

theorem lookup_mkSketch_one_plus (m : Nat) (seed : Int) (anyIds : Finset UserId)
    (keyf : UserId → Nat) :
    (mkSketch m seed anyIds keyf).lookup .ONE_PLUS = anyIds := by
  show lookupKey
    (((List.range' 1 m).map (fun j => (BucketKey.freq j, anyIds.filter (fun x => keyf x = j))))
      ++ [(BucketKey.ONE_PLUS, anyIds)]) BucketKey.ONE_PLUS = anyIds
  rw [lookupKey_append_right]
  · rfl
  · intro h
    rcases List.mem_map.mp h with ⟨p, hp, hfst⟩
    rcases List.mem_map.mp hp with ⟨j, _, hj⟩
    rw [← hj] at hfst
    cases hfst

theorem lookup_mkSketch_freq_out (m : Nat) (seed : Int) (anyIds : Finset UserId)
    (keyf : UserId → Nat) (k : Nat) (h : k = 0 ∨ m < k) :
    (mkSketch m seed anyIds keyf).lookup (.freq k) = ∅ := by
  show lookupKey
    (((List.range' 1 m).map (fun j => (BucketKey.freq j, anyIds.filter (fun x => keyf x = j))))
      ++ [(BucketKey.ONE_PLUS, anyIds)]) (BucketKey.freq k) = ∅
  rw [lookupKey_append_right]
  · show (if BucketKey.ONE_PLUS = BucketKey.freq k then anyIds else lookupKey [] _) = ∅
    rw [if_neg (by simp)]
    rfl
  · intro hmem
    rcases List.mem_map.mp hmem with ⟨p, hp, hfst⟩
    rcases List.mem_map.mp hp with ⟨j, hj, hpj⟩
    rw [← hpj] at hfst
    have hjk : j = k := by cases hfst; rfl
    have := (mem_range'_iff m 1 j).mp hj
    omega

theorem key_mkSketch_mem (m : Nat) (seed : Int) (anyIds : Finset UserId)
    (keyf : UserId → Nat) (x : UserId) (hx : x ∈ anyIds) (h1 : 1 ≤ keyf x)
    (h2 : keyf x ≤ m) : (mkSketch m seed anyIds keyf).key x = keyf x := by
  unfold StratifiedSketch.key
  rw [mkSketch_max_freq]
  rw [find?_range'_of_uniq _ (keyf x) m 1 h1 (by omega)]
  · rfl
  · rw [decide_eq_true_iff, lookup_mkSketch_freq m seed anyIds keyf _ h1 h2,
      Finset.mem_filter]
    exact ⟨hx, rfl⟩
  · intro j hj1 hj2 hpj
    rw [decide_eq_true_iff,
      lookup_mkSketch_freq m seed anyIds keyf j hj1 (by omega), Finset.mem_filter] at hpj
    exact hpj.2.symm

theorem key_mkSketch_not_mem (m : Nat) (seed : Int) (anyIds : Finset UserId)
    (keyf : UserId → Nat) (x : UserId) (hx : x ∉ anyIds) :
    (mkSketch m seed anyIds keyf).key x = 0 := by
  unfold StratifiedSketch.key
  rw [mkSketch_max_freq]
  rw [find?_range'_none]
  · rfl
  · intro j hj1 hj2
    rw [decide_eq_false_iff_not,
      lookup_mkSketch_freq m seed anyIds keyf j hj1 (by omega), Finset.mem_filter]
    intro hmem
    exact hx hmem.1

theorem mkSketch_WF (m : Nat) (seed : Int) (anyIds : Finset UserId) (keyf : UserId → Nat)
    (hm : 0 < m) (hkey : ∀ x ∈ anyIds, 1 ≤ keyf x ∧ keyf x ≤ m) :
    WellFormed (mkSketch m seed anyIds keyf) := by
  refine ⟨hm, ?_, ?_, ?_, ?_⟩
  · show List.map Prod.fst (_ ++ _) = _
    rw [List.map_append, List.map_map]
    rfl
  · intro j hj k hk hjk x hxj
    rw [mkSketch_max_freq, Finset.mem_Icc] at hj hk
    rw [lookup_mkSketch_freq m seed anyIds keyf j hj.1 hj.2, Finset.mem_filter] at hxj
    rw [lookup_mkSketch_freq m seed anyIds keyf k hk.1 hk.2, Finset.mem_filter]
    intro hxk
    exact hjk (hxj.2 ▸ hxk.2 ▸ rfl)
  · intro k hk x hxk
    rw [mkSketch_max_freq, Finset.mem_Icc] at hk
    rw [lookup_mkSketch_freq m seed anyIds keyf k hk.1 hk.2, Finset.mem_filter] at hxk
    rw [lookup_mkSketch_one_plus]
    exact hxk.1
  · intro x hx
    rw [lookup_mkSketch_one_plus] at hx
    refine ⟨keyf x, ?_, ?_⟩
    · rw [mkSketch_max_freq, Finset.mem_Icc]
      exact (hkey x hx)
    · rw [lookup_mkSketch_freq m seed anyIds keyf _ (hkey x hx).1 (hkey x hx).2,
        Finset.mem_filter]
      exact ⟨hx, rfl⟩

/-! ### Key lemmas on well-formed sketches -/

theorem key_unique_of_WF {s : StratifiedSketch} (h : WellFormed s) {k : Nat} {x : UserId}
    (hk1 : 1 ≤ k) (hk2 : k ≤ s.max_freq) (hx : x ∈ s.lookup (.freq k)) : s.key x = k := by
  unfold StratifiedSketch.key
  rw [find?_range'_of_uniq _ k s.max_freq 1 hk1 (by omega)]
  · rfl
  · rw [decide_eq_true_iff]; exact hx
  · intro j hj1 hj2 hpj
    rw [decide_eq_true_iff] at hpj
    by_contra hne
    exact h.2.2.1 j (Finset.mem_Icc.mpr ⟨hj1, by omega⟩) k (Finset.mem_Icc.mpr ⟨hk1, hk2⟩)
      hne x hpj hx

theorem key_zero_of_WF {s : StratifiedSketch} (h : WellFormed s) {x : UserId}
    (hx : x ∉ s.lookup .ONE_PLUS) : s.key x = 0 := by
  unfold StratifiedSketch.key
  rw [find?_range'_none]
  · rfl
  · intro j hj1 hj2
    rw [decide_eq_false_iff_not]
    intro hmem
    exact hx (h.2.2.2.1 j (Finset.mem_Icc.mpr ⟨hj1, by omega⟩) x hmem)

theorem key_bounds_of_WF {s : StratifiedSketch} (h : WellFormed s) {x : UserId}
    (hx : x ∈ s.lookup .ONE_PLUS) : 1 ≤ s.key x ∧ s.key x ≤ s.max_freq := by
  rcases h.2.2.2.2 x hx with ⟨k, hk, hmem⟩
  rw [Finset.mem_Icc] at hk
  rw [key_unique_of_WF h hk.1 hk.2 hmem]
  exact hk

theorem key_of_keySpec {s : StratifiedSketch} {x : UserId} {k : Nat} (h : WellFormed s)
    (hk : keySpec s x k) : s.key x = k := by
  rcases hk with ⟨h1, h2, h3⟩ | ⟨h0, habs⟩
  · exact key_unique_of_WF h h1 h2 h3
  · rw [h0]; exact key_zero_of_WF h habs

/-! ### Canonical form of a well-formed sketch -/

theorem lookupKey_ext : ∀ (l1 l2 : List (BucketKey × Finset UserId)),
    l1.map Prod.fst = l2.map Prod.fst → (l1.map Prod.fst).Nodup →
    (∀ k, lookupKey l1 k = lookupKey l2 k) → l1 = l2 := by
  intro l1
  induction l1 with
  | nil =>
      intro l2 hmap _ _
      cases l2 with
      | nil => rfl
      | cons q t2 => cases hmap
  | cons p t1 ih =>
      intro l2 hmap hnodup hlook
      cases l2 with
      | nil => cases hmap
      | cons q t2 =>
          rw [List.map_cons, List.map_cons] at hmap
          injection hmap with hfst htail
          have hval : p.2 = q.2 := by
            have h1 := hlook p.1
            show p.2 = q.2
            have e1 : lookupKey (p :: t1) p.1 = p.2 := by
              show (if p.1 = p.1 then p.2 else _) = p.2
              rw [if_pos rfl]
            have e2 : lookupKey (q :: t2) p.1 = q.2 := by
              show (if q.1 = p.1 then q.2 else _) = q.2
              rw [if_pos hfst.symm]
            rw [e1, e2] at h1
            exact h1
          have hnd := List.nodup_cons.mp (by rw [List.map_cons] at hnodup; exact hnodup)
          have hrest : t1 = t2 := by
            refine ih t2 htail hnd.2 ?_
            intro k
            by_cases hk : k = p.1
            · have hkt1 : k ∉ t1.map Prod.fst := by rw [hk]; exact hnd.1
              have hkt2 : k ∉ t2.map Prod.fst := htail ▸ hkt1
              rw [lookupKey_eq_empty_of_not_mem t1 k hkt1,
                lookupKey_eq_empty_of_not_mem t2 k hkt2]
            · have h1 := hlook k
              have e1 : lookupKey (p :: t1) k = lookupKey t1 k := by
                show (if p.1 = k then p.2 else _) = _
                rw [if_neg (fun hq => hk hq.symm)]
              have e2 : lookupKey (q :: t2) k = lookupKey t2 k := by
                show (if q.1 = k then q.2 else _) = _
                rw [if_neg (fun hq => hk (hfst ▸ hq).symm)]
              rw [e1, e2] at h1
              exact h1
          calc p :: t1 = ⟨p.1, p.2⟩ :: t1 := rfl
            _ = ⟨q.1, q.2⟩ :: t2 := by rw [hfst, hval, hrest]
            _ = q :: t2 := rfl

theorem canonical_keys_nodup (m : Nat) :
    ((List.range' 1 m).map BucketKey.freq ++ [BucketKey.ONE_PLUS]).Nodup := by
  refine List.Nodup.append ?_ (List.nodup_singleton _) ?_
  · exact (nodup_range' m 1).map (fun a b h => by cases h; rfl)
  · intro bk hbk hbk2
    rw [List.mem_singleton] at hbk2
    rcases List.mem_map.mp hbk with ⟨j, _, hj⟩
    rw [hbk2] at hj
    cases hj

theorem WF_lookup_eq_filter {s : StratifiedSketch} (h : WellFormed s) {k : Nat}
    (hk1 : 1 ≤ k) (hk2 : k ≤ s.max_freq) :
    s.lookup (.freq k) = (s.lookup .ONE_PLUS).filter (fun x => s.key x = k) := by
  ext x
  rw [Finset.mem_filter]
  constructor
  · intro hx
    exact ⟨h.2.2.2.1 k (Finset.mem_Icc.mpr ⟨hk1, hk2⟩) x hx, key_unique_of_WF h hk1 hk2 hx⟩
  · rintro ⟨hany, hkey⟩
    rcases h.2.2.2.2 x hany with ⟨j, hj, hmem⟩
    rw [Finset.mem_Icc] at hj
    have := key_unique_of_WF h hj.1 hj.2 hmem
    rw [hkey] at this
    rw [this]
    exact hmem

theorem WF_canonical {s : StratifiedSketch} (h : WellFormed s) :
    s = mkSketch s.max_freq s.random_seed (s.lookup .ONE_PLUS) s.key := by
  have hsk : s.sketches = (mkSketch s.max_freq s.random_seed (s.lookup .ONE_PLUS) s.key).sketches := by
    apply lookupKey_ext
    · rw [h.2.1]
      show _ = List.map Prod.fst (_ ++ _)
      rw [List.map_append, List.map_map]
      rfl
    · rw [h.2.1]
      exact canonical_keys_nodup s.max_freq
    · intro bk
      cases bk with
      | ONE_PLUS =>
          show s.lookup .ONE_PLUS = (mkSketch _ _ _ _).lookup .ONE_PLUS
          rw [lookup_mkSketch_one_plus]
      | freq k =>
          show s.lookup (.freq k) = (mkSketch _ _ _ _).lookup (.freq k)
          by_cases hk : 1 ≤ k ∧ k ≤ s.max_freq
          · rw [lookup_mkSketch_freq _ _ _ _ k hk.1 hk.2, WF_lookup_eq_filter h hk.1 hk.2]
          · rw [lookup_mkSketch_freq_out _ _ _ _ k (by omega)]
            apply lookupKey_eq_empty_of_not_mem
            rw [h.2.1]
            intro hmem
            rcases List.mem_append.mp hmem with hmem | hmem
            · rcases List.mem_map.mp hmem with ⟨j, hj, hjeq⟩
              have hj' := (mem_range'_iff s.max_freq 1 j).mp hj
              have : j = k := by cases hjeq; rfl
              omega
            · rw [List.mem_singleton] at hmem
              cases hmem
  calc s = ⟨s.max_freq, s.random_seed, s.sketches⟩ := rfl
    _ = mkSketch s.max_freq s.random_seed (s.lookup .ONE_PLUS) s.key := by
        rw [hsk]; rfl

/-! ### Lemmas about the pairwise merge -/

theorem any_mergePairCore (a b : StratifiedSketch) :
    (mergePairCore a b).lookup .ONE_PLUS = a.lookup .ONE_PLUS ∪ b.lookup .ONE_PLUS :=
  lookup_mkSketch_one_plus _ _ _ _

theorem key_sum_pos {a b : StratifiedSketch} (ha : WellFormed a) (hb : WellFormed b)
    {x : UserId} (hx : x ∈ a.lookup .ONE_PLUS ∪ b.lookup .ONE_PLUS) :
    1 ≤ a.key x + b.key x := by
  rcases Finset.mem_union.mp hx with hx | hx
  · have := (key_bounds_of_WF ha hx).1; omega
  · have := (key_bounds_of_WF hb hx).1; omega

theorem key_mergePairCore {a b : StratifiedSketch} (ha : WellFormed a) (hb : WellFormed b)
    (_hm : a.max_freq = b.max_freq) (x : UserId) :
    (mergePairCore a b).key x = cap a.max_freq (a.key x + b.key x) := by
  unfold mergePairCore
  by_cases hx : x ∈ a.lookup .ONE_PLUS ∪ b.lookup .ONE_PLUS
  · refine key_mkSketch_mem _ _ _ _ x hx ?_ ?_
    · exact one_le_cap ha.1 (key_sum_pos ha hb hx)
    · exact cap_le _ _
  · rw [key_mkSketch_not_mem _ _ _ _ x hx]
    rw [Finset.mem_union] at hx
    push_neg at hx
    rw [key_zero_of_WF ha hx.1, key_zero_of_WF hb hx.2]
    unfold cap
    omega

theorem WF_mergePairCore {a b : StratifiedSketch} (ha : WellFormed a) (hb : WellFormed b)
    (_hm : a.max_freq = b.max_freq) : WellFormed (mergePairCore a b) := by
  refine mkSketch_WF _ _ _ _ ha.1 ?_
  intro x hx
  exact ⟨one_le_cap ha.1 (key_sum_pos ha hb hx), cap_le _ _⟩

theorem merge_sketches_ok {a b : StratifiedSketch} (hm : a.max_freq = b.max_freq)
    (hs : a.random_seed = b.random_seed) :
    PairwiseEstimator.merge_sketches a b = Except.ok (mergePairCore a b) := by
  unfold PairwiseEstimator.merge_sketches StratifiedSketch.assert_compatible
  rw [if_pos ⟨hm, hs⟩]
  rfl

theorem merge_sketches_error {a b : StratifiedSketch}
    (h : ¬(a.max_freq = b.max_freq ∧ a.random_seed = b.random_seed)) :
    PairwiseEstimator.merge_sketches a b = Except.error Err.assertionError := by
  unfold PairwiseEstimator.merge_sketches StratifiedSketch.assert_compatible
  rw [if_neg h]
  rfl

/-! ### Lemmas about the sequential merge -/

theorem anysUnion_cons (s : StratifiedSketch) (l : List StratifiedSketch) :
    anysUnion (s :: l) = s.lookup .ONE_PLUS ∪ anysUnion l := rfl

theorem keySum_cons (s : StratifiedSketch) (l : List StratifiedSketch) (x : UserId) :
    keySum (s :: l) x = s.key x + keySum l x := by
  unfold keySum
  rw [List.map_cons, List.sum_cons]

theorem mem_anysUnion {l : List StratifiedSketch} {x : UserId} :
    x ∈ anysUnion l ↔ ∃ s ∈ l, x ∈ s.lookup .ONE_PLUS := by
  induction l with
  | nil => simp [anysUnion]
  | cons s t ih =>
      rw [anysUnion_cons, Finset.mem_union, ih]
      simp

theorem WF_seqMergeCore {s1 : StratifiedSketch} {rest : List StratifiedSketch}
    (h1 : WellFormed s1) (hrest : ∀ s ∈ rest, WellFormed s ∧ s1.max_freq = s.max_freq) :
    WellFormed (seqMergeCore s1 rest) := by
  refine mkSketch_WF _ _ _ _ h1.1 ?_
  intro x hx
  refine ⟨?_, cap_le _ _⟩
  apply one_le_cap h1.1
  rcases Finset.mem_union.mp hx with hx | hx
  · have := (key_bounds_of_WF h1 hx).1; omega
  · rcases mem_anysUnion.mp hx with ⟨s, hs, hmem⟩
    have hk := (key_bounds_of_WF (hrest s hs).1 hmem).1
    have : s.key x ≤ keySum rest x := by
      apply le_sum_of_mem
      exact List.mem_map.mpr ⟨s, hs, rfl⟩
    omega

theorem foldl_merge (rest : List StratifiedSketch) :
    ∀ (acc b : StratifiedSketch), WellFormed acc → WellFormed b →
    acc.max_freq = b.max_freq → acc.random_seed = b.random_seed →
    (∀ s ∈ rest, WellFormed s ∧ acc.max_freq = s.max_freq ∧ acc.random_seed = s.random_seed) →
    (b :: rest).foldl (fun r t => r.bind (fun u => PairwiseEstimator.merge_sketches u t))
        (Except.ok acc)
      = Except.ok (mkSketch acc.max_freq acc.random_seed
          (acc.lookup .ONE_PLUS ∪ anysUnion (b :: rest))
          (fun x => cap acc.max_freq (acc.key x + keySum (b :: rest) x))) := by
  induction rest with
  | nil =>
      intro acc b hacc hb hm hs _
      show (Except.ok acc).bind (fun u => PairwiseEstimator.merge_sketches u b) = _
      rw [Except.bind, merge_sketches_ok hm hs]
      have hany : acc.lookup .ONE_PLUS ∪ anysUnion [b]
          = acc.lookup .ONE_PLUS ∪ b.lookup .ONE_PLUS := by
        rw [anysUnion_cons]
        show _ = acc.lookup .ONE_PLUS ∪ (b.lookup .ONE_PLUS)
        rw [show anysUnion [] = (∅ : Finset UserId) from rfl, Finset.union_empty]
      have hkey : (fun x => cap acc.max_freq (acc.key x + keySum [b] x))
          = (fun x => cap acc.max_freq (acc.key x + b.key x)) := by
        funext x
        rw [keySum_cons]
        show cap acc.max_freq (acc.key x + (b.key x + keySum [] x)) = _
        rw [show keySum [] x = 0 from rfl, Nat.add_zero]
      rw [show mergePairCore acc b = mkSketch acc.max_freq acc.random_seed
          (acc.lookup .ONE_PLUS ∪ b.lookup .ONE_PLUS)
          (fun x => cap acc.max_freq (acc.key x + b.key x)) from rfl, ← hany, ← hkey]
  | cons t rest2 ih =>
      intro acc b hacc hb hm hs hrest
      have hstep : (b :: t :: rest2).foldl
            (fun r u => r.bind (fun v => PairwiseEstimator.merge_sketches v u))
            (Except.ok acc)
          = (t :: rest2).foldl
            (fun r u => r.bind (fun v => PairwiseEstimator.merge_sketches v u))
            (Except.ok (mergePairCore acc b)) := by
        rw [List.foldl_cons]
        congr 1
        show (Except.ok acc).bind (fun v => PairwiseEstimator.merge_sketches v b) = _
        rw [Except.bind, merge_sketches_ok hm hs]
      rw [hstep]
      have hacc' : WellFormed (mergePairCore acc b) := WF_mergePairCore hacc hb hm
      have ht := hrest t (List.mem_cons_self t rest2)
      have hrest2 : ∀ s ∈ rest2, WellFormed s
          ∧ (mergePairCore acc b).max_freq = s.max_freq
          ∧ (mergePairCore acc b).random_seed = s.random_seed := by
        intro s hsmem
        have := hrest s (List.mem_cons_of_mem t hsmem)
        exact ⟨this.1, this.2.1, this.2.2⟩
      rw [ih (mergePairCore acc b) t hacc' ht.1 ht.2.1 ht.2.2 hrest2]
      have hany : (mergePairCore acc b).lookup .ONE_PLUS ∪ anysUnion (t :: rest2)
          = acc.lookup .ONE_PLUS ∪ anysUnion (b :: t :: rest2) := by
        rw [any_mergePairCore, anysUnion_cons b, Finset.union_assoc]
      have hkey : (fun x => cap (mergePairCore acc b).max_freq
            ((mergePairCore acc b).key x + keySum (t :: rest2) x))
          = (fun x => cap acc.max_freq (acc.key x + keySum (b :: t :: rest2) x)) := by
        funext x
        rw [show (mergePairCore acc b).max_freq = acc.max_freq from rfl,
          key_mergePairCore hacc hb hm x, cap_cap_left, keySum_cons b,
          Nat.add_assoc]
      have hmk : mkSketch (mergePairCore acc b).max_freq (mergePairCore acc b).random_seed
          ((mergePairCore acc b).lookup .ONE_PLUS ∪ anysUnion (t :: rest2))
          (fun x => cap (mergePairCore acc b).max_freq
            ((mergePairCore acc b).key x + keySum (t :: rest2) x))
          = mkSketch acc.max_freq acc.random_seed
            (acc.lookup .ONE_PLUS ∪ anysUnion (b :: t :: rest2))
            (fun x => cap acc.max_freq (acc.key x + keySum (b :: t :: rest2) x)) := by
        rw [hany, hkey]
        rfl
      exact congrArg Except.ok hmk

/-! ### Lemmas about the Exact Multiset -/

theorem freqList_addList : ∀ (l : List (UserId × Nat)) (y x : UserId),
    freqList (addList l y) x = freqList l x + (if y = x then 1 else 0) := by
  intro l
  induction l with
  | nil =>
      intro y x
      show (if y = x then 1 else 0) = 0 + (if y = x then 1 else 0)
      omega
  | cons p t ih =>
      intro y x
      rcases p with ⟨z, c⟩
      show freqList (if z = y then (z, c + 1) :: t else (z, c) :: addList t y) x = _
      by_cases hzy : z = y
      · rw [if_pos hzy]
        show (if z = x then c + 1 else freqList t x) = (if z = x then c else freqList t x) + _
        by_cases hzx : z = x
        · rw [if_pos hzx, if_pos hzx, if_pos (by rw [← hzy, hzx])]
        · rw [if_neg hzx, if_neg hzx, if_neg (by rw [← hzy]; exact hzx)]
          omega
      · rw [if_neg hzy]
        show (if z = x then c else freqList (addList t y) x) = (if z = x then c else freqList t x) + _
        by_cases hzx : z = x
        · rw [if_pos hzx, if_pos hzx, if_neg (by rw [← hzx]; exact fun h => hzy h.symm)]
          omega
        · rw [if_neg hzx, if_neg hzx, ih]

theorem frequency_add (ms : ExactMultiSet) (y x : UserId) :
    (ms.add y).frequency x = ms.frequency x + (if y = x then 1 else 0) :=
  freqList_addList ms.ids_list y x

theorem frequency_add_ids : ∀ (l : List UserId) (ms : ExactMultiSet) (x : UserId),
    (ms.add_ids l).frequency x = ms.frequency x + l.count x := by
  intro l
  induction l with
  | nil => intro ms x; rfl
  | cons a t ih =>
      intro ms x
      show ((ms.add a).add_ids t).frequency x = _
      rw [ih, frequency_add, List.count_cons]
      by_cases h : a = x
      · subst h
        simp
        omega
      · simp [h, Ne.symm h]

theorem frequency_foldl_add_ids : ∀ (sets : List (List UserId)) (ms : ExactMultiSet)
    (x : UserId), (sets.foldl ExactMultiSet.add_ids ms).frequency x
      = ms.frequency x + (sets.map (fun s => s.count x)).sum := by
  intro sets
  induction sets with
  | nil => intro ms x; simp
  | cons s t ih =>
      intro ms x
      rw [List.foldl_cons, ih, frequency_add_ids, List.map_cons, List.sum_cons]
      omega

theorem frequency_multi_set_of_sets (sets : List (List UserId)) (x : UserId) :
    (multi_set_of_sets sets).frequency x = (sets.map (fun s => s.count x)).sum := by
  unfold multi_set_of_sets
  rw [frequency_foldl_add_ids,
    show (⟨[]⟩ : ExactMultiSet).frequency x = 0 from rfl, Nat.zero_add]

theorem msPositive_addList : ∀ (l : List (UserId × Nat)) (y : UserId),
    (∀ p ∈ l, 1 ≤ p.2) → ∀ p ∈ addList l y, 1 ≤ p.2 := by
  intro l
  induction l with
  | nil =>
      intro y _ p hp
      rcases List.mem_singleton.mp hp with h
      rw [h]
  | cons q t ih =>
      intro y h p hp
      rcases q with ⟨z, c⟩
      by_cases hzy : z = y
      · rw [show addList ((z, c) :: t) y = (z, c + 1) :: t from by
          show (if z = y then _ else _) = _; rw [if_pos hzy]] at hp
        rcases List.mem_cons.mp hp with h1 | h1
        · rw [h1]; omega
        · exact h p (List.mem_cons_of_mem _ h1)
      · rw [show addList ((z, c) :: t) y = (z, c) :: addList t y from by
          show (if z = y then _ else _) = _; rw [if_neg hzy]] at hp
        rcases List.mem_cons.mp hp with h1 | h1
        · rw [h1]; exact h (z, c) (List.mem_cons_self _ _)
        · exact ih y (fun q hq => h q (List.mem_cons_of_mem _ hq)) p h1

theorem msPositive_add {ms : ExactMultiSet} (h : msPositive ms) (y : UserId) :
    msPositive (ms.add y) :=
  msPositive_addList ms.ids_list y h

theorem msPositive_add_ids : ∀ (l : List UserId) {ms : ExactMultiSet},
    msPositive ms → msPositive (ms.add_ids l) := by
  intro l
  induction l with
  | nil => intro ms h; exact h
  | cons a t ih => intro ms h; exact ih (msPositive_add h a)

theorem msPositive_multi_set_of_sets (sets : List (List UserId)) :
    msPositive (multi_set_of_sets sets) := by
  unfold multi_set_of_sets
  have : ∀ (l : List (List UserId)) (ms : ExactMultiSet), msPositive ms →
      msPositive (l.foldl ExactMultiSet.add_ids ms) := by
    intro l
    induction l with
    | nil => intro ms h; exact h
    | cons s t ih => intro ms h; exact ih _ (msPositive_add_ids s h)
  exact this sets ⟨[]⟩ (fun p hp => by cases hp)

theorem mem_map_fst_of_freq_pos : ∀ {l : List (UserId × Nat)} {x : UserId},
    1 ≤ freqList l x → x ∈ l.map Prod.fst := by
  intro l
  induction l with
  | nil => intro x h; exact absurd h (by simp [freqList])
  | cons p t ih =>
      intro x h
      rcases p with ⟨z, c⟩
      rw [List.map_cons, List.mem_cons]
      by_cases hzx : z = x
      · left; exact hzx.symm
      · right
        apply ih
        have : freqList ((z, c) :: t) x = freqList t x := by
          show (if z = x then c else freqList t x) = _
          rw [if_neg hzx]
        rw [this] at h
        exact h

theorem freq_pos_of_mem_map_fst : ∀ {l : List (UserId × Nat)} {x : UserId},
    (∀ p ∈ l, 1 ≤ p.2) → x ∈ l.map Prod.fst → 1 ≤ freqList l x := by
  intro l
  induction l with
  | nil => intro x _ h; cases h
  | cons p t ih =>
      intro x hpos h
      rcases p with ⟨z, c⟩
      show 1 ≤ if z = x then c else freqList t x
      by_cases hzx : z = x
      · rw [if_pos hzx]
        exact hpos (z, c) (List.mem_cons_self _ _)
      · rw [if_neg hzx]
        rcases List.mem_cons.mp h with h1 | h1
        · exact absurd h1.symm hzx
        · exact ih (fun q hq => hpos q (List.mem_cons_of_mem _ hq)) h1

theorem mem_id_set_iff {ms : ExactMultiSet} (hpos : msPositive ms) (x : UserId) :
    x ∈ ms.id_set ↔ 1 ≤ ms.frequency x := by
  unfold ExactMultiSet.id_set ExactMultiSet.frequency
  rw [List.mem_toFinset]
  exact ⟨freq_pos_of_mem_map_fst hpos, mem_map_fst_of_freq_pos⟩

theorem mem_id_set_of_freq_pos {ms : ExactMultiSet} {x : UserId}
    (h : 1 ≤ ms.frequency x) : x ∈ ms.id_set := by
  unfold ExactMultiSet.id_set
  rw [List.mem_toFinset]
  exact mem_map_fst_of_freq_pos h

/-! ### Well-formedness of constructed sketches -/

theorem WF_init {m : Nat} {ms : ExactMultiSet} (seed : Int) (hm : 0 < m)
    (hpos : msPositive ms) :
    WellFormed (StratifiedSketch.init_from_exact_multi_set m ms seed) := by
  refine mkSketch_WF _ _ _ _ hm ?_
  intro x hx
  have hf := (mem_id_set_iff hpos x).mp hx
  exact ⟨one_le_cap hm hf, cap_le _ _⟩

theorem WF_sketches_length {s : StratifiedSketch} (h : WellFormed s) :
    s.sketches.length = s.max_freq + 1 := by
  have := congrArg List.length h.2.1
  rw [List.length_map, List.length_append, List.length_map, List.length_range'] at this
  simpa using this

/-! ### Claim theorems -/

/-- C3: saturating sum with cap `m` is a commutative monoid on the
non-negative integers up to `m`: for every positive cap `m`,
`cap(cap(a) + cap(b)) = cap(a + b)`, the operation `satAdd m` is commutative,
associative on `{0..m}` and closed there, and `0` is its identity element. -/
theorem claim_C3 : ∀ m : Nat, 0 < m →
    (∀ a b : Nat, cap m (cap m a + cap m b) = cap m (a + b)) ∧
    (∀ a b : Nat, satAdd m a b = satAdd m b a) ∧
    (∀ a b c : Nat, a ≤ m → b ≤ m → c ≤ m →
      satAdd m (satAdd m a b) c = satAdd m a (satAdd m b c)) ∧
    (∀ a : Nat, a ≤ m → satAdd m 0 a = a ∧ satAdd m a 0 = a) ∧
    (∀ a b : Nat, a ≤ m → b ≤ m → satAdd m a b ≤ m) := by
  intro m hm
  refine ⟨cap_cap_add m, ?_, ?_, ?_, ?_⟩
  · intro a b; unfold satAdd cap; omega
  · intro a b c h1 h2 h3; unfold satAdd cap; omega
  · intro a h; unfold satAdd cap; omega
  · intro a b h1 h2; unfold satAdd cap; omega

theorem claim_C3_witness :
    cap 3 (cap 3 2 + cap 3 5) = cap 3 (2 + 5) ∧
    satAdd 3 1 2 = satAdd 3 2 1 ∧
    satAdd 3 0 2 = 2 ∧ satAdd 3 2 3 ≤ 3 :=
  ⟨(claim_C3 3 (by decide)).1 2 5, (claim_C3 3 (by decide)).2.1 1 2,
   ((claim_C3 3 (by decide)).2.2.2.1 2 (by decide)).1,
   (claim_C3 3 (by decide)).2.2.2.2 2 3 (by decide) (by decide)⟩

/-- C4: `init_from_exact_multi_set` places every id of true frequency
`f ≥ 1` into exactly the numeric bucket `min(f, max_freq)`: the id is a
member of that bucket and of no other numeric bucket. -/
theorem claim_C4 : ∀ (m : Nat) (ms : ExactMultiSet) (seed : Int) (x : UserId),
    0 < m → 1 ≤ ms.frequency x →
    (x ∈ (StratifiedSketch.init_from_exact_multi_set m ms seed).lookup
        (.freq (min (ms.frequency x) m)) ∧
     ∀ k, 1 ≤ k → k ≤ m → k ≠ min (ms.frequency x) m →
       x ∉ (StratifiedSketch.init_from_exact_multi_set m ms seed).lookup (.freq k)) := by
  intro m ms seed x hm hf
  have hK1 : 1 ≤ min (ms.frequency x) m := le_min hf hm
  have hK2 : min (ms.frequency x) m ≤ m := min_le_right _ _
  constructor
  · unfold StratifiedSketch.init_from_exact_multi_set
    rw [lookup_mkSketch_freq _ _ _ _ _ hK1 hK2, Finset.mem_filter]
    exact ⟨mem_id_set_of_freq_pos hf, rfl⟩
  · intro k hk1 hk2 hkne
    unfold StratifiedSketch.init_from_exact_multi_set
    rw [lookup_mkSketch_freq _ _ _ _ _ hk1 hk2, Finset.mem_filter]
    rintro ⟨-, hcap⟩
    exact hkne (hcap ▸ rfl)

theorem claim_C4_witness :
    4 ∈ (StratifiedSketch.init_from_exact_multi_set 3 exampleMultiSetB 1).lookup
        (.freq (min (exampleMultiSetB.frequency 4) 3)) ∧
    4 ∉ (StratifiedSketch.init_from_exact_multi_set 3 exampleMultiSetB 1).lookup (.freq 2) := by
  have h := claim_C4 3 exampleMultiSetB 1 4 (by decide) (by decide)
  exact ⟨h.1, h.2 2 (by decide) (by decide) (by decide)⟩

/-- C9: the sequential merge of a one-element list succeeds and returns a
sketch equal to the single input, field by field and bucket by bucket. -/
theorem claim_C9 : ∀ s : StratifiedSketch,
    SequentialEstimator.merge_sketches [s] = Except.ok s :=
  fun _ => rfl

/-- C10: a Stratified Sketch built by the public constructor with no sketch
factory has no buckets populated; `assert_compatible` is decided solely by
the two scalar fields `max_freq` and `random_seed`, and the error it reports
on a mismatch is specifically the assertion error. -/
theorem claim_C10 : ∀ (m1 m2 : Nat) (s1 s2 : Int) (l1 l2 : List (BucketKey × Finset UserId)),
    ((StratifiedSketch.mk m1 s1 l1).assert_compatible (StratifiedSketch.mk m2 s2 l2)
      = (StratifiedSketch.create m1 s1).assert_compatible (StratifiedSketch.create m2 s2)) ∧
    (StratifiedSketch.create m1 s1).sketches = [] ∧
    ((m1 ≠ m2 ∨ s1 ≠ s2) →
      (StratifiedSketch.create m1 s1).assert_compatible (StratifiedSketch.create m2 s2)
        = Except.error Err.assertionError) := by
  intro m1 m2 s1 s2 l1 l2
  refine ⟨rfl, rfl, ?_⟩
  intro h
  unfold StratifiedSketch.assert_compatible
  rw [if_neg]
  rcases h with h | h
  · exact fun hc => h hc.1
  · exact fun hc => h hc.2

theorem claim_C10_witness :
    (StratifiedSketch.create 1 1).assert_compatible (StratifiedSketch.create 2 1)
      = Except.error Err.assertionError :=
  (claim_C10 1 2 1 1 [] []).2.2 (Or.inl (by decide))

/-- C6: `assert_compatible`, the pairwise merge and the sequential merge of a
pair all fail with the assertion error whenever `max_freq` or `random_seed`
differ (with no partial result, the error being returned instead of a
sketch), and `assert_compatible` succeeds whenever both fields agree. -/
theorem claim_C6 : ∀ a b : StratifiedSketch,
    ((a.max_freq ≠ b.max_freq ∨ a.random_seed ≠ b.random_seed) →
      a.assert_compatible b = Except.error Err.assertionError ∧
      PairwiseEstimator.merge_sketches a b = Except.error Err.assertionError ∧
      SequentialEstimator.merge_sketches [a, b] = Except.error Err.assertionError) ∧
    (a.max_freq = b.max_freq ∧ a.random_seed = b.random_seed →
      a.assert_compatible b = Except.ok ()) := by
  intro a b
  constructor
  · intro h
    have hn : ¬(a.max_freq = b.max_freq ∧ a.random_seed = b.random_seed) := by
      rcases h with h | h
      · exact fun hc => h hc.1
      · exact fun hc => h hc.2
    refine ⟨?_, merge_sketches_error hn, ?_⟩
    · unfold StratifiedSketch.assert_compatible
      rw [if_neg hn]
    · have hfalse : [b].all (fun t => compatibleB a t) = false := by
        show (compatibleB a b && List.all [] _) = false
        rw [show List.all [] (fun t => compatibleB a t) = true from rfl, Bool.and_true]
        exact decide_eq_false hn
      show (if [b].all (fun t => compatibleB a t) = true then
          Except.ok (seqMergeCore a [b]) else Except.error Err.assertionError) = _
      rw [hfalse, if_neg (by simp)]
  · intro h
    unfold StratifiedSketch.assert_compatible
    rw [if_pos h]

theorem claim_C6_witness :
    ((StratifiedSketch.create 1 1).assert_compatible (StratifiedSketch.create 1 2)
      = Except.error Err.assertionError ∧
     PairwiseEstimator.merge_sketches (StratifiedSketch.create 1 1)
        (StratifiedSketch.create 1 2) = Except.error Err.assertionError ∧
     SequentialEstimator.merge_sketches
        [StratifiedSketch.create 1 1, StratifiedSketch.create 1 2]
      = Except.error Err.assertionError) ∧
    (StratifiedSketch.create 1 1).assert_compatible (StratifiedSketch.create 1 1)
      = Except.ok () :=
  ⟨(claim_C6 _ _).1 (Or.inr (by decide)), (claim_C6 _ _).2 (by decide)⟩

/-- C1: for compatible well-formed inputs, the pairwise merge places every id
of the combined reach into the numeric bucket `min(keyA + keyB, max_freq)`,
where `keyX` is the bucket key of the id in input `X` (0 when absent); and on
the reference scenario (`max_freq = 3`, A: id1 twice, id2 three times, id3
once; B: id1 once, id3 once, id4 five times, id5 once) the merged sketch has
bucket1 = {5}, bucket2 = {3}, bucket3 = {1, 2, 4} and `ONE_PLUS` =
{1, 2, 3, 4, 5}. -/
theorem claim_C1 :
    (∀ a b c : StratifiedSketch, WellFormed a → WellFormed b →
      PairwiseEstimator.merge_sketches a b = Except.ok c →
      ∀ (x : UserId) (kA kB : Nat),
        x ∈ a.lookup .ONE_PLUS ∪ b.lookup .ONE_PLUS →
        keySpec a x kA → keySpec b x kB →
        x ∈ c.lookup (.freq (min (kA + kB) a.max_freq))) ∧
    (PairwiseEstimator.merge_sketches exampleSketchA exampleSketchB
        = Except.ok (mergePairCore exampleSketchA exampleSketchB) ∧
     (mergePairCore exampleSketchA exampleSketchB).lookup (.freq 1) = {5} ∧
     (mergePairCore exampleSketchA exampleSketchB).lookup (.freq 2) = {3} ∧
     (mergePairCore exampleSketchA exampleSketchB).lookup (.freq 3) = {1, 2, 4} ∧
     (mergePairCore exampleSketchA exampleSketchB).lookup .ONE_PLUS = {1, 2, 3, 4, 5}) := by
  constructor
  · intro a b c ha hb hok x kA kB hx hkA hkB
    by_cases hc : a.max_freq = b.max_freq ∧ a.random_seed = b.random_seed
    · rw [merge_sketches_ok hc.1 hc.2] at hok
      injection hok with hok
      subst hok
      have h1 : 1 ≤ kA + kB := by
        rcases Finset.mem_union.mp hx with hmem | hmem
        · rcases hkA with ⟨hk1, -, -⟩ | ⟨-, habs⟩
          · omega
          · exact absurd hmem habs
        · rcases hkB with ⟨hk1, -, -⟩ | ⟨-, habs⟩
          · omega
          · exact absurd hmem habs
      have hK1 : 1 ≤ min (kA + kB) a.max_freq := le_min h1 ha.1
      have hK2 : min (kA + kB) a.max_freq ≤ a.max_freq := min_le_right _ _
      unfold mergePairCore
      rw [lookup_mkSketch_freq _ _ _ _ _ hK1 hK2, Finset.mem_filter]
      refine ⟨hx, ?_⟩
      rw [key_of_keySpec ha hkA, key_of_keySpec hb hkB]
      rfl
    · rw [merge_sketches_error hc] at hok
      cases hok
  · refine ⟨rfl, ?_, ?_, ?_, ?_⟩ <;>
      exact Finset.Subset.antisymm (by decide) (by decide)

theorem claim_C1_witness :
    (5 : UserId) ∈ (mergePairCore exampleSketchA exampleSketchB).lookup
      (.freq (min (0 + 1) exampleSketchA.max_freq)) :=
  claim_C1.1 exampleSketchA exampleSketchB (mergePairCore exampleSketchA exampleSketchB)
    (by decide) (by decide) rfl 5 0 1 (by decide) (by decide) (by decide)

/-- C5: every sketch produced by either construction operation or by either
merge estimator is well-formed — its bucket table has exactly `max_freq + 1`
entries with keys `1..max_freq` and `ONE_PLUS`, numeric buckets are pairwise
disjoint (I1), and the `ONE_PLUS` bucket equals their union (I2); the last
conjunct restates well-formedness in exactly those terms. -/
theorem claim_C5 :
    (∀ (m : Nat) (ms : ExactMultiSet) (seed : Int), 0 < m → msPositive ms →
      WellFormed (StratifiedSketch.init_from_exact_multi_set m ms seed)) ∧
    (∀ (m : Nat) (sets : List (List UserId)) (seed : Int), 0 < m →
      WellFormed (StratifiedSketch.init_from_set_generator m sets seed)) ∧
    (∀ a b c : StratifiedSketch, WellFormed a → WellFormed b →
      PairwiseEstimator.merge_sketches a b = Except.ok c → WellFormed c) ∧
    (∀ (l : List StratifiedSketch) (c : StratifiedSketch), (∀ s ∈ l, WellFormed s) →
      SequentialEstimator.merge_sketches l = Except.ok c → WellFormed c) ∧
    (∀ s : StratifiedSketch, WellFormed s →
      s.sketches.length = s.max_freq + 1 ∧
      s.sketches.map Prod.fst
        = (List.range' 1 s.max_freq).map BucketKey.freq ++ [BucketKey.ONE_PLUS] ∧
      (∀ j ∈ Finset.Icc 1 s.max_freq, ∀ k ∈ Finset.Icc 1 s.max_freq, j ≠ k →
        s.lookup (.freq j) ∩ s.lookup (.freq k) = ∅) ∧
      s.lookup .ONE_PLUS = (Finset.Icc 1 s.max_freq).biUnion (fun k => s.lookup (.freq k))) := by
  refine ⟨?_, ?_, ?_, ?_, ?_⟩
  · intro m ms seed hm hpos
    exact WF_init seed hm hpos
  · intro m sets seed hm
    exact WF_init seed hm (msPositive_multi_set_of_sets sets)
  · intro a b c ha hb hok
    by_cases hc : a.max_freq = b.max_freq ∧ a.random_seed = b.random_seed
    · rw [merge_sketches_ok hc.1 hc.2] at hok
      injection hok with hok
      subst hok
      exact WF_mergePairCore ha hb hc.1
    · rw [merge_sketches_error hc] at hok
      cases hok
  · intro l c hl hok
    match l with
    | [] => cases hok
    | [s] =>
        injection hok with hok
        subst hok
        exact hl s (List.mem_cons_self _ _)
    | s1 :: s2 :: rest =>
        by_cases hall : (s2 :: rest).all (fun t => compatibleB s1 t) = true
        · have hok' : (if (s2 :: rest).all (fun t => compatibleB s1 t) = true then
              Except.ok (seqMergeCore s1 (s2 :: rest))
              else Except.error Err.assertionError) = Except.ok c := hok
          rw [if_pos hall] at hok'
          injection hok' with hok'
          subst hok'
          refine WF_seqMergeCore (hl s1 (List.mem_cons_self _ _)) ?_
          intro s hs
          have hcomp := List.all_eq_true.mp hall s hs
          have := of_decide_eq_true hcomp
          exact ⟨hl s (List.mem_cons_of_mem _ hs), this.1⟩
        · have hok' : (if (s2 :: rest).all (fun t => compatibleB s1 t) = true then
              Except.ok (seqMergeCore s1 (s2 :: rest))
              else Except.error Err.assertionError) = Except.ok c := hok
          rw [if_neg hall] at hok'
          cases hok'
  · intro s h
    refine ⟨WF_sketches_length h, h.2.1, ?_, ?_⟩
    · intro j hj k hk hjk
      rw [Finset.eq_empty_iff_forall_not_mem]
      intro x hx
      rw [Finset.mem_inter] at hx
      exact h.2.2.1 j hj k hk hjk x hx.1 hx.2
    · ext x
      rw [Finset.mem_biUnion]
      constructor
      · intro hx
        exact h.2.2.2.2 x hx
      · rintro ⟨k, hk, hmem⟩
        exact h.2.2.2.1 k hk x hmem

theorem claim_C5_witness :
    WellFormed (StratifiedSketch.init_from_exact_multi_set 3 exampleMultiSetA 1) ∧
    WellFormed (StratifiedSketch.init_from_set_generator 2 [[1, 1, 2], [1]] 7) ∧
    WellFormed (mergePairCore exampleSketchA exampleSketchB) ∧
    (mergePairCore exampleSketchA exampleSketchB).sketches.length
      = (mergePairCore exampleSketchA exampleSketchB).max_freq + 1 :=
  ⟨claim_C5.1 3 exampleMultiSetA 1 (by decide) (by decide),
   claim_C5.2.1 2 [[1, 1, 2], [1]] 7 (by decide),
   claim_C5.2.2.1 exampleSketchA exampleSketchB _ (by decide) (by decide) rfl,
   (claim_C5.2.2.2.2 (mergePairCore exampleSketchA exampleSketchB)
     (claim_C5.2.2.1 exampleSketchA exampleSketchB _ (by decide) (by decide) rfl)).1⟩

/-- C7: construction from a sequence of sets equals construction from the
Exact Multiset accumulating every occurrence across every set; the result is
invariant under permuting the sequence of sets, and within-source repeats
accumulate into the true frequency (the frequency of an id in the
accumulated multiset is the total occurrence count across all sets). -/
theorem claim_C7 :
    (∀ (m : Nat) (sets : List (List UserId)) (seed : Int),
      StratifiedSketch.init_from_set_generator m sets seed
        = StratifiedSketch.init_from_exact_multi_set m (multi_set_of_sets sets) seed) ∧
    (∀ (m : Nat) (seed : Int) (sets1 sets2 : List (List UserId)), sets1.Perm sets2 →
      StratifiedSketch.init_from_set_generator m sets1 seed
        = StratifiedSketch.init_from_set_generator m sets2 seed) ∧
    (∀ (sets : List (List UserId)) (x : UserId),
      (multi_set_of_sets sets).frequency x = (sets.map (fun s => s.count x)).sum) := by
  refine ⟨fun m sets seed => rfl, ?_, frequency_multi_set_of_sets⟩
  intro m seed sets1 sets2 hperm
  unfold StratifiedSketch.init_from_set_generator StratifiedSketch.init_from_exact_multi_set
  have hfreq : ∀ x, (multi_set_of_sets sets1).frequency x
      = (multi_set_of_sets sets2).frequency x := by
    intro x
    rw [frequency_multi_set_of_sets, frequency_multi_set_of_sets]
    exact List.Perm.sum_eq (hperm.map _)
  have hids : (multi_set_of_sets sets1).id_set = (multi_set_of_sets sets2).id_set := by
    ext x
    rw [mem_id_set_iff (msPositive_multi_set_of_sets sets1) x,
      mem_id_set_iff (msPositive_multi_set_of_sets sets2) x, hfreq x]
  rw [hids]
  congr 1
  funext x
  rw [hfreq x]

theorem claim_C7_witness :
    StratifiedSketch.init_from_set_generator 3 [[1, 1, 1, 2, 2, 3], [1, 1, 1, 3, 3, 4]] 1
      = StratifiedSketch.init_from_set_generator 3 [[1, 1, 1, 3, 3, 4], [1, 1, 1, 2, 2, 3]] 1 :=
  claim_C7.2.1 3 1 _ _ (List.Perm.swap _ _ _)

/-- C2: for compatible well-formed inputs, the sequential N-way merge equals
the left-to-right fold of the pairwise merge over the list; and on the
reference scenario (`max_freq = 3`, sources A, B, C) the sequential merge
yields bucket1 = {6}, bucket2 = {3, 5}, bucket3 = {1, 2, 4} and `ONE_PLUS` =
{1, 2, 3, 4, 5, 6}. -/
theorem claim_C2 :
    (∀ (s1 : StratifiedSketch) (rest : List StratifiedSketch),
      2 ≤ (s1 :: rest).length → WellFormed s1 →
      (∀ s ∈ rest, WellFormed s ∧ s1.max_freq = s.max_freq
        ∧ s1.random_seed = s.random_seed) →
      SequentialEstimator.merge_sketches (s1 :: rest)
        = rest.foldl (fun r t => r.bind (fun u => PairwiseEstimator.merge_sketches u t))
            (Except.ok s1)) ∧
    (SequentialEstimator.merge_sketches [exampleSketchA, exampleSketchB, exampleSketchC]
        = Except.ok (seqMergeCore exampleSketchA [exampleSketchB, exampleSketchC]) ∧
     (seqMergeCore exampleSketchA [exampleSketchB, exampleSketchC]).lookup (.freq 1) = {6} ∧
     (seqMergeCore exampleSketchA [exampleSketchB, exampleSketchC]).lookup (.freq 2) = {3, 5} ∧
     (seqMergeCore exampleSketchA [exampleSketchB, exampleSketchC]).lookup (.freq 3)
        = {1, 2, 4} ∧
     (seqMergeCore exampleSketchA [exampleSketchB, exampleSketchC]).lookup .ONE_PLUS
        = {1, 2, 3, 4, 5, 6}) := by
  constructor
  · intro s1 rest hlen h1 hrest
    cases rest with
    | nil => simp at hlen
    | cons s2 rest2 =>
        have hall : (s2 :: rest2).all (fun t => compatibleB s1 t) = true := by
          rw [List.all_eq_true]
          intro t ht
          have := hrest t ht
          exact decide_eq_true ⟨this.2.1, this.2.2⟩
        have hseq : SequentialEstimator.merge_sketches (s1 :: s2 :: rest2)
            = Except.ok (seqMergeCore s1 (s2 :: rest2)) := by
          show (if (s2 :: rest2).all (fun t => compatibleB s1 t) = true then
              Except.ok (seqMergeCore s1 (s2 :: rest2))
              else Except.error Err.assertionError) = _
          rw [if_pos hall]
        rw [hseq]
        have h2 := hrest s2 (List.mem_cons_self _ _)
        have hrest2 : ∀ s ∈ rest2, WellFormed s ∧ s1.max_freq = s.max_freq
            ∧ s1.random_seed = s.random_seed :=
          fun s hs => hrest s (List.mem_cons_of_mem _ hs)
        rw [foldl_merge rest2 s1 s2 h1 h2.1 h2.2.1 h2.2.2 hrest2]
        rfl
  · refine ⟨rfl, ?_, ?_, ?_, ?_⟩ <;>
      exact Finset.Subset.antisymm (by decide) (by decide)

theorem claim_C2_witness :
    SequentialEstimator.merge_sketches [exampleSketchA, exampleSketchB, exampleSketchC]
      = [exampleSketchB, exampleSketchC].foldl
          (fun r t => r.bind (fun u => PairwiseEstimator.merge_sketches u t))
          (Except.ok exampleSketchA) :=
  claim_C2.1 exampleSketchA [exampleSketchB, exampleSketchC] (by decide) (by decide)
    (by decide)
